import Mathlib

/-!
# gobuild: a polling rebuild daemon

A shallow embedding of `gobuild.go`.  Text is a `String` (a sequence of
code points); external commands, the clock and the process environment are
inputs gathered in a `World`; every function of the program is a function
to a `Run`, the events it causes in order together with the way it ends.
-/

namespace Gobuild

/-! ## The regular expression of `versionRegexp` -/

/-- The Perl class `\w` of Go regular expressions: `[0-9A-Za-z_]`. -/
def isWordChar (c : Char) : Bool := c.isAlphanum || c == '_'

/-- The atom `.` without the `s` flag: every character but the newline. -/
def isDot (c : Char) : Bool := c != '\n'

/-- The pieces `versionRegexp` is built from: a literal character, a greedy
`+` over a character class, and the two ends of the capturing group. -/
inductive Item
  | lit (c : Char)
  | plus (p : Char → Bool)
  | capOpen
  | capClose

/-- Greedy repetition: the candidate lengths `n, n-1, .., 1` in that order,
the first one the continuation accepts wins. -/
def tryLens {α : Type} : Nat → (Nat → Option α) → Option α
  | 0, _ => none
  | k + 1, f =>
    match f (k + 1) with
    | some r => some r
    | none => tryLens k f

/-- Backtracking match of a sequence of items at the head of `inp`, which
starts at offset `pos`; `cap` holds the bounds of group 1.  The result is the
offset after the match and the bounds of group 1. -/
def matchHere : List Item → List Char → Nat → Nat × Nat → Option (Nat × Nat × Nat)
  | [], _, pos, cap => some (pos, cap.1, cap.2)
  | Item.lit c :: r, inp, pos, cap =>
    match inp with
    | x :: xs => if x = c then matchHere r xs (pos + 1) cap else none
    | [] => none
  | Item.plus p :: r, inp, pos, cap =>
    tryLens (inp.takeWhile p).length (fun k => matchHere r (inp.drop k) (pos + k) cap)
  | Item.capOpen :: r, inp, pos, cap => matchHere r inp pos (pos, cap.2)
  | Item.capClose :: r, inp, pos, cap => matchHere r inp pos (cap.1, pos)

/-- Leftmost match: the start offsets are tried from left to right.  The
result is start, end, and the bounds of group 1. -/
def findFrom (re : List Item) : List Char → Nat → Option (Nat × Nat × Nat × Nat)
  | [], start =>
    match matchHere re [] start (0, 0) with
    | some r => some (start, r)
    | none => none
  | x :: xs, start =>
    match matchHere re (x :: xs) start (0, 0) with
    | some r => some (start, r)
    | none => findFrom re xs (start + 1)

/-- The characters of `s` from offset `a` up to offset `b`. -/
def slice (s : List Char) (a b : Nat) : String := String.mk ((s.drop a).take (b - a))

/-- `(*Regexp).FindStringSubmatch`: the text of the leftmost match followed
by the text of group 1; the empty (nil) slice when there is no match. -/
def FindStringSubmatch (re : List Item) (s : String) : List String :=
  match findFrom re s.data 0 with
  | none => []
  | some (a, b, c, d) => [slice s.data a b, slice s.data c d]

/-- A run of literal characters. -/
def lits (s : String) : List Item := s.data.map Item.lit

/-- The pattern `go version devel \+(\w+) .+ \w+\/\w+`. -/
def versionRegexp : List Item :=
  lits "go version devel +" ++
    [Item.capOpen, Item.plus isWordChar, Item.capClose, Item.lit ' ', Item.plus isDot,
     Item.lit ' ', Item.plus isWordChar, Item.lit '/', Item.plus isWordChar]

/-! ## Other pieces of the standard library -/

/-- The predicate `unicode.IsSpace`: the Latin-1 spaces and the code points
with the White_Space property. -/
def isSpace (c : Char) : Bool :=
  let n := c.toNat
  (0x09 ≤ n && n ≤ 0x0D) || n == 0x20 || n == 0x85 || n == 0xA0 || n == 0x1680 ||
    (0x2000 ≤ n && n ≤ 0x200A) || n == 0x2028 || n == 0x2029 || n == 0x202F ||
    n == 0x205F || n == 0x3000

/-- `strings.TrimSpace`: the text without its leading and trailing white space. -/
def TrimSpace (s : String) : String :=
  String.mk ((s.data.dropWhile isSpace).reverse.dropWhile isSpace).reverse

/-- A Go `error` value that is not nil, kept as the text of `err.Error()`. -/
abbrev Error := String

/-- What a standard stream of a child process is connected to. -/
inductive Pipe
  | null
  | osStdin
  | osStdout
  | osStderr
  | buffer
  deriving DecidableEq, Repr

/-- An `exec.Cmd` as the program fills it in.  `name` and `dir` keep the
operands of `filepath.Join` (one operand when the path is used as it is);
`env = none` is the nil `Env`, which inherits the environment. -/
structure Cmd where
  name : List String
  args : List String
  dir : List String
  stdin : Pipe
  stdout : Pipe
  stderr : Pipe
  env : Option (List String)
  deriving DecidableEq, Repr

/-- An operand of a `fmt` call. -/
inductive Val
  | str (s : String)
  | dur (d : Int)
  | err (e : Error)
  deriving DecidableEq, Repr

/-- What the process does that can be observed from outside, one event per
call into the standard library. -/
inductive Event
  | run (c : Cmd)
  | start (c : Cmd)
  | wait (c : Cmd)
  | print (vs : List Val)
  | println (vs : List Val)
  | printf (format : String) (vs : List Val)
  | eprintln (vs : List Val)
  | newTicker (d : Int)
  | tick
  deriving DecidableEq, Repr

/-- How a computation ends: it returns, the process exits with a status, a
run-time panic stops it, or it is blocked on a tick that has not come. -/
inductive Result (α : Type)
  | ret (a : α)
  | exit (code : Int)
  | panic (msg : String)
  | blocked
  deriving DecidableEq, Repr

/-- The events of a computation in order, and how it ends. -/
structure Run (α : Type) where
  trace : List Event
  res : Result α
  deriving DecidableEq, Repr

/-- Sequencing: what follows runs only when the first part returns. -/
def Run.bind {α β : Type} (x : Run α) (f : α → Run β) : Run β :=
  match x.res with
  | Result.ret a => ⟨x.trace ++ (f a).trace, (f a).res⟩
  | Result.exit c => ⟨x.trace, Result.exit c⟩
  | Result.panic m => ⟨x.trace, Result.panic m⟩
  | Result.blocked => ⟨x.trace, Result.blocked⟩

instance : Monad Run where
  pure a := ⟨[], Result.ret a⟩
  bind := Run.bind

/-- One observable event. -/
def emit (e : Event) : Run Unit := ⟨[e], Result.ret ()⟩

/-- `os.Exit(code)`. -/
def osExit {α : Type} (code : Int) : Run α := ⟨[], Result.exit code⟩

/-- A run-time panic. -/
def goPanic {α : Type} (msg : String) : Run α := ⟨[], Result.panic msg⟩

/-- The commands of the child processes a trace launches (`Run` or `Start`). -/
def launched : List Event → List Cmd
  | [] => []
  | Event.run c :: es => c :: launched es
  | Event.start c :: es => c :: launched es
  | _ :: es => launched es

/-- The commands of the child processes a trace starts with `Start`; `build` is the
only function that does. -/
def buildStarts : List Event → List Cmd
  | [] => []
  | Event.start c :: es => c :: buildStarts es
  | _ :: es => buildStarts es

/-- The offset of the first `=` in a text, `strings.Index(kv, "=")`. -/
def indexEq : List Char → Option Nat
  | [] => none
  | c :: cs => if c = '=' then some 0 else (indexEq cs).map (fun i => i + 1)

/-- The key of an environment entry as `dedupEnv` of os/exec reads it: the text
before the first `=`, where a leading `=` belongs to the key; `none` for an entry
that has no `=`. -/
def envKey (kv : String) : Option (List Char) :=
  match indexEq kv.data with
  | none => none
  | some 0 =>
    match indexEq (kv.data.drop 1) with
    | none => some []
    | some j => some (kv.data.take (j + 1))
  | some (i + 1) => some (kv.data.take (i + 1))

/-- The loop of `dedupEnv` over the entries from the last to the first: `saw` holds
the keys met so far.  An entry with a NUL byte is left out and makes the error; an
entry without a key is kept unless it is empty; an entry whose key was met is left
out. -/
def dedupScan : List String → List (List Char) → List String × Option Error
  | [], _ => ([], none)
  | kv :: rest, saw =>
    if kv.data.contains (Char.ofNat 0) then
      ((dedupScan rest saw).1, some "exec: environment variable contains NUL")
    else
      match envKey kv with
      | none =>
        if kv = "" then dedupScan rest saw
        else (kv :: (dedupScan rest saw).1, (dedupScan rest saw).2)
      | some k =>
        if saw.contains k then dedupScan rest saw
        else (kv :: (dedupScan rest (k :: saw)).1, (dedupScan rest (k :: saw)).2)

/-- The function `dedupEnv` of os/exec on a POSIX system: of the entries with one
key only the last is kept, the order of what is kept is the order of the list. -/
def dedupEnv (env : List String) : List String × Option Error :=
  ((dedupScan env.reverse []).1.reverse, (dedupScan env.reverse []).2)

/-- The environment `Start` hands to the child of a command whose `Env` is set: the
list after `dedupEnv`.  (When `dedupEnv` reports its error `Start` fails and there
is no child; a command with the nil `Env` is left out, `none`.) -/
def childEnv (c : Cmd) : Option (List String) :=
  c.env.map (fun env => (dedupEnv env).1)

/-! ## The program -/

/-- The package-level variables after `flag.Parse()`. -/
structure Config where
  rootDir : String
  toolChain : String
  printVersion : Bool
  printGo : Bool
  updateRate : Int

/-- What the outside world answers during one cycle: the environment of the
process, the result of each external command (`none` is the nil error), the
captured standard output, and the elapsed times the clock yields. -/
structure World where
  environ : List String
  pull : Option Error
  pullElapsed : Int
  version : Option Error
  versionOut : String
  revParse : Option Error
  revParseOut : String
  buildStart : Option Error
  buildWait : Option Error
  buildElapsed : Int

def errUnknownVersion : Error := "Unknown version"

def fatal (err : Option Error) (description : String) : Run Unit :=
  match err with
  | none => pure ()
  | some e => do
    emit (Event.eprintln [Val.str description, Val.err e])
    osExit (-1)

/-- The command `bin/go version` of `getVersion`. -/
def versionCmd (cfg : Config) : Cmd :=
  { name := ["bin", "go"], args := ["version"], dir := [cfg.rootDir],
    stdin := Pipe.null, stdout := Pipe.buffer, stderr := Pipe.osStderr, env := none }

def getVersion (cfg : Config) (w : World) : Run String := do
  emit (Event.run (versionCmd cfg))
  fatal w.version "getVersion"
  let found := FindStringSubmatch versionRegexp w.versionOut
  if found.length < 2 then
    fatal (some errUnknownVersion) "getVersion"
  match found[1]? with
  | some tok => pure tok
  | none => goPanic "index out of range"

/-- The command `git rev-parse --short HEAD` of `getCommitHash`. -/
def hashCmd (cfg : Config) : Cmd :=
  { name := ["git"], args := ["rev-parse", "--short", "HEAD"], dir := [cfg.rootDir],
    stdin := Pipe.null, stdout := Pipe.buffer, stderr := Pipe.osStderr, env := none }

def getCommitHash (cfg : Config) (w : World) : Run String := do
  emit (Event.run (hashCmd cfg))
  fatal w.revParse "git hash"
  pure (TrimSpace w.revParseOut)

/-- The command `git pull` of `updateGit`. -/
def pullCmd (cfg : Config) : Cmd :=
  { name := ["git"], args := ["pull"], dir := [cfg.rootDir],
    stdin := Pipe.null, stdout := Pipe.osStdout, stderr := Pipe.osStderr, env := none }

def updateGit (cfg : Config) (w : World) : Run Unit := do
  emit (Event.run (pullCmd cfg))
  fatal w.pull "git pull"
  emit (Event.printf "updated (%s)\n" [Val.dur w.pullElapsed])

def isUpdateNeeded (cfg : Config) (w : World) : Run Bool := do
  let v ← getVersion cfg w
  let h ← getCommitHash cfg w
  pure (v != h)

/-- The command `/bin/bash make.bash` of `build`; `env` is the list the program
assigns to `cmd.Env`, `append(os.Environ(), "GOROOT_BOOTSTRAP="+toolChain)`. -/
def buildCmd (cfg : Config) (w : World) : Cmd :=
  { name := ["/bin/bash"], args := ["make.bash"], dir := [cfg.rootDir, "src"],
    stdin := Pipe.osStdin, stdout := Pipe.osStdout, stderr := Pipe.osStderr,
    env := some (w.environ ++ ["GOROOT_BOOTSTRAP=" ++ cfg.toolChain]) }

def build (cfg : Config) (w : World) : Run Unit := do
  emit (Event.start (buildCmd cfg w))
  fatal w.buildStart "start"
  emit (Event.wait (buildCmd cfg w))
  fatal w.buildWait "wait"
  emit (Event.println [Val.str "built in", Val.dur w.buildElapsed])

def routine (cfg : Config) (w : World) : Run Unit := do
  updateGit cfg w
  let needed ← isUpdateNeeded cfg w
  if !needed then
    emit (Event.println [Val.str "no update needed"])
  else
    build cfg w

/-- `time.NewTicker(d)`, which panics unless `d` is positive. -/
def NewTicker (d : Int) : Run Unit :=
  if d ≤ 0 then goPanic "non-positive interval for NewTicker" else emit (Event.newTicker d)

/-- The loop `for range ticker.C`, seen for the first `n` ticks it receives;
`w i` is the world of cycle `i`.  The channel is never closed, so after the
last tick seen the loop is blocked on the next one. -/
def tickLoop (cfg : Config) (w : Nat → World) : Nat → Nat → Run Unit
  | 0, _ => ⟨[], Result.blocked⟩
  | n + 1, i => do
    emit Event.tick
    routine cfg (w i)
    tickLoop cfg w n (i + 1)

/-- The function `main` once `flag.Parse()` has filled `cfg`, seen for the
first `n` ticks. -/
def main (cfg : Config) (w : Nat → World) (n : Nat) : Run Unit := do
  if cfg.printVersion then
    let v ← getVersion cfg (w 0)
    emit (Event.print [Val.str v])
    osExit 1
  emit (Event.println [Val.str "started go builder with rate of", Val.dur cfg.updateRate])
  routine cfg (w 0)
  NewTicker cfg.updateRate
  tickLoop cfg w n 1

/-! ## Flag registration -/

/-- The package-level variables a flag can be bound to. -/
inductive Var
  | rootDir
  | toolChain
  | printVersion
  | printGo
  | updateRate
  deriving DecidableEq, Repr

/-- A default value of a flag. -/
inductive FlagValue
  | bool (b : Bool)
  | string (s : String)
  | duration (d : Int)
  deriving DecidableEq, Repr

/-- A registered flag: its name on the command line, its usage text, the
variable it is bound to and its default value. -/
structure Flag where
  name : String
  usage : String
  target : Var
  defValue : FlagValue
  deriving DecidableEq, Repr

/-- The formal flags of `flag.CommandLine`, in the order of registration. -/
abbrev FlagSet := List Flag

/-- The panic of the flag package, `flag redefined: <name>`. -/
inductive FlagPanic
  | redefined (name : String)
  deriving DecidableEq, Repr

/-- `(*FlagSet).Var`: a name that is already registered is a panic. -/
def FlagSet.Var (fs : FlagSet) (f : Flag) : Except FlagPanic FlagSet :=
  if fs.any (fun g => g.name == f.name) then
    Except.error (FlagPanic.redefined f.name)
  else
    Except.ok (fs ++ [f])

/-- The flag a call `flag.BoolVar(&p, name, value, usage)` registers. -/
def boolFlag (p : Var) (name : String) (value : Bool) (usage : String) : Flag :=
  { name := name, usage := usage, target := p, defValue := FlagValue.bool value }

/-- The flag a call `flag.StringVar(&p, name, value, usage)` registers. -/
def stringFlag (p : Var) (name : String) (value : String) (usage : String) : Flag :=
  { name := name, usage := usage, target := p, defValue := FlagValue.string value }

/-- The flag a call `flag.DurationVar(&p, name, value, usage)` registers. -/
def durationFlag (p : Var) (name : String) (value : Int) (usage : String) : Flag :=
  { name := name, usage := usage, target := p, defValue := FlagValue.duration value }

/-- One second as a `time.Duration`, in nanoseconds. -/
def Second : Int := 1000000000

/-- The five registrations of `init`, in the order of the source. -/
def initFlags : List Flag :=
  [ boolFlag Var.printVersion "v" false "print go version",
    boolFlag Var.printGo "v" false "print go executable path",
    stringFlag Var.rootDir "r" "/src/go" "go root directory",
    stringFlag Var.toolChain "c" "/src/go-linux-amd64-bootstrap/" "go toolchain",
    durationFlag Var.updateRate "t" (Second * 30) "time in seconds to wait between updates" ]

/-- The registrations one after the other on a flag set; the first panic ends them. -/
def register : FlagSet → List Flag → Except FlagPanic FlagSet
  | fs, [] => Except.ok fs
  | fs, f :: rest =>
    match FlagSet.Var fs f with
    | Except.ok fs2 => register fs2 rest
    | Except.error msg => Except.error msg

/-- The function `init`, which runs before `main` on the empty flag set. -/
def init : Except FlagPanic FlagSet := register [] initFlags

/-! ## Vocabulary of the statements -/

/-- The literal head of the pattern. -/
def versionHead : List Char := "go version devel +".data

/-- The items after the capturing group. -/
def versionTail : List Item :=
  [Item.lit ' ', Item.plus isDot, Item.lit ' ', Item.plus isWordChar, Item.lit '/',
   Item.plus isWordChar]

/-- The textual template `go version devel +<hash> <rest>` somewhere in `s`: the
literal head, a hash token that is not empty, one space, a rest that is not empty. -/
def ContainsTemplate (s : String) : Prop :=
  ∃ pre hash rest : List Char,
    s.data = pre ++ (versionHead ++ (hash ++ ' ' :: rest)) ∧ hash ≠ [] ∧ rest ≠ []

/-- An environment list that `dedupEnv` has nothing to remove from: no entry is
empty or holds a NUL byte, and no key occurs twice. -/
def CleanEnv (env : List String) : Prop :=
  (∀ kv ∈ env, kv ≠ "" ∧ kv.data.contains (Char.ofNat 0) = false) ∧
    (env.filterMap envKey).Nodup

instance (env : List String) : Decidable (CleanEnv env) := by
  unfold CleanEnv
  infer_instance

/-- The prefix of every cycle in which the pull succeeds. -/
def pullOk (cfg : Config) (w : World) : List Event :=
  [Event.run (pullCmd cfg), Event.printf "updated (%s)\n" [Val.dur w.pullElapsed]]

/-- The line `main` prints before the first cycle. -/
def startedLine (cfg : Config) : Event :=
  Event.println [Val.str "started go builder with rate of", Val.dur cfg.updateRate]

/-- The events of `n` ticks in a row, each followed by the whole trace of its cycle;
the first of these cycles is cycle `i`. -/
def cyclesFrom (cfg : Config) (w : Nat → World) : Nat → Nat → List Event
  | 0, _ => []
  | n + 1, i => Event.tick :: ((routine cfg (w i)).trace ++ cyclesFrom cfg w n (i + 1))

/-! ## Concrete inputs -/

/-- A configuration used at concrete inputs: the default flag values. -/
def defaultConfig : Config :=
  { rootDir := "/src/go", toolChain := "/src/go-linux-amd64-bootstrap/", printVersion := false,
    printGo := false, updateRate := Second * 30 }

/-- A world in which every command succeeds, with the version output `v` and the
revision output `g`. -/
def okWorld (v g : String) : World :=
  { environ := ["PATH=/usr/bin", "HOME=/root"], pull := none, pullElapsed := 5, version := none,
    versionOut := v, revParse := none, revParseOut := g, buildStart := none, buildWait := none,
    buildElapsed := 7 }

/-- The version output of scenario A. -/
def versionA : String :=
  "go version devel +abcdef1 Mon Jan 1 00:00:00 2024 +0000 linux/amd64"

/-- A world in which the pull fails with `exit status 1`. -/
def pullFails : World :=
  { okWorld versionA "1234567\n" with pull := some "exit status 1" }

/-- A world of scenario B in which the build script exits with status 2. -/
def buildFails : World :=
  { okWorld versionA "1234567\n" with buildWait := some "exit status 2" }

/-- A world of scenario B whose environment already holds `GOROOT_BOOTSTRAP`. -/
def dupWorld : World :=
  { okWorld versionA "1234567\n" with
    environ := ["PATH=/usr/bin", "HOME=/root", "GOROOT_BOOTSTRAP=/old"] }

/-! ## Lemmas on the matcher -/

theorem tryLens_top {α : Type} (n : Nat) (f : Nat → Option α) (r : α)
    (hn : 0 < n) (h : f n = some r) : tryLens n f = some r := by
  cases n with
  | zero => omega
  | succ k => simp [tryLens, h]

theorem tryLens_isSome {α : Type} (n k : Nat) (f : Nat → Option α)
    (h1 : 1 ≤ k) (h2 : k ≤ n) (h : (f k).isSome = true) : (tryLens n f).isSome = true := by
  induction n with
  | zero => omega
  | succ m ih =>
    unfold tryLens
    cases hf : f (m + 1) with
    | some r => simp
    | none =>
      have hk : k ≤ m := by
        rcases Nat.lt_or_ge m k with hlt | hge
        · have : k = m + 1 := by omega
          subst this
          simp [hf] at h
        · exact hge
      simpa using ih hk

theorem tryLens_sound {α : Type} (n : Nat) (f : Nat → Option α) (r : α)
    (h : tryLens n f = some r) : ∃ k, 1 ≤ k ∧ k ≤ n ∧ f k = some r := by
  induction n with
  | zero => simp [tryLens] at h
  | succ m ih =>
    unfold tryLens at h
    cases hf : f (m + 1) with
    | some r2 =>
      rw [hf] at h
      exact ⟨m + 1, by omega, le_refl _, by rw [hf]; exact h⟩
    | none =>
      rw [hf] at h
      obtain ⟨k, h1, h2, h3⟩ := ih h
      exact ⟨k, h1, by omega, h3⟩

theorem matchHere_nil (inp : List Char) (pos : Nat) (cap : Nat × Nat) :
    matchHere [] inp pos cap = some (pos, cap.1, cap.2) := by
  rw [matchHere]

theorem matchHere_lit_cons (c : Char) (r : List Item) (x : Char) (xs : List Char) (pos : Nat)
    (cap : Nat × Nat) :
    matchHere (Item.lit c :: r) (x :: xs) pos cap =
      if x = c then matchHere r xs (pos + 1) cap else none := by
  rw [matchHere]

theorem matchHere_lit_nil (c : Char) (r : List Item) (pos : Nat) (cap : Nat × Nat) :
    matchHere (Item.lit c :: r) [] pos cap = none := by
  rw [matchHere]

theorem matchHere_plus (p : Char → Bool) (r : List Item) (inp : List Char) (pos : Nat)
    (cap : Nat × Nat) :
    matchHere (Item.plus p :: r) inp pos cap =
      tryLens (inp.takeWhile p).length
        (fun k => matchHere r (inp.drop k) (pos + k) cap) := by
  rw [matchHere]

theorem matchHere_capOpen (r : List Item) (inp : List Char) (pos : Nat) (cap : Nat × Nat) :
    matchHere (Item.capOpen :: r) inp pos cap = matchHere r inp pos (pos, cap.2) := by
  rw [matchHere]

theorem matchHere_capClose (r : List Item) (inp : List Char) (pos : Nat) (cap : Nat × Nat) :
    matchHere (Item.capClose :: r) inp pos cap = matchHere r inp pos (cap.1, pos) := by
  rw [matchHere]

theorem matchHere_lits (l : List Char) (r : List Item) (xs : List Char) (pos : Nat)
    (cap : Nat × Nat) :
    matchHere (l.map Item.lit ++ r) (l ++ xs) pos cap = matchHere r xs (pos + l.length) cap := by
  induction l generalizing pos with
  | nil => simp
  | cons c t ih =>
    simp only [List.map_cons, List.cons_append, List.length_cons]
    rw [matchHere_lit_cons, if_pos rfl, ih]
    congr 1
    omega

theorem matchHere_lits_sound (l : List Char) (r : List Item) (inp : List Char) (pos : Nat)
    (cap : Nat × Nat) (x : Nat × Nat × Nat)
    (h : matchHere (l.map Item.lit ++ r) inp pos cap = some x) :
    ∃ xs, inp = l ++ xs ∧ matchHere r xs (pos + l.length) cap = some x := by
  induction l generalizing inp pos with
  | nil => exact ⟨inp, by simp, by simpa using h⟩
  | cons c t ih =>
    cases inp with
    | nil =>
      simp only [List.map_cons, List.cons_append] at h
      rw [matchHere_lit_nil] at h
      simp at h
    | cons y ys =>
      simp only [List.map_cons, List.cons_append] at h
      rw [matchHere_lit_cons] at h
      by_cases hy : y = c
      · rw [if_pos hy] at h
        obtain ⟨xs, h1, h2⟩ := ih ys (pos + 1) h
        refine ⟨xs, by simp [hy, h1], ?_⟩
        rw [← h2]
        congr 1
        simp only [List.length_cons]
        omega
      · rw [if_neg hy] at h
        simp at h

theorem takeWhile_run {p : Char → Bool} (xs : List Char) (d : Char) (rest : List Char)
    (hx : ∀ c ∈ xs, p c = true) (hd : p d = false) :
    (xs ++ d :: rest).takeWhile p = xs := by
  induction xs with
  | nil => simp [List.takeWhile, hd]
  | cons a t ih =>
    have ha : p a = true := hx a (List.mem_cons_self a t)
    have ht : ∀ c ∈ t, p c = true := fun c hc => hx c (List.mem_cons_of_mem a hc)
    simp [List.takeWhile, ha, ih ht]

theorem takeWhile_run_le {p : Char → Bool} (xs rest : List Char)
    (hx : ∀ c ∈ xs, p c = true) : xs.length ≤ ((xs ++ rest).takeWhile p).length := by
  induction xs with
  | nil => simp
  | cons a t ih =>
    have ha : p a = true := hx a (List.mem_cons_self a t)
    have ht : ∀ c ∈ t, p c = true := fun c hc => hx c (List.mem_cons_of_mem a hc)
    simp only [List.cons_append, List.takeWhile, ha, List.length_cons]
    exact Nat.succ_le_succ (ih ht)

theorem versionRegexp_split :
    versionRegexp = "go version devel +".data.map Item.lit ++
      (Item.capOpen :: Item.plus isWordChar :: Item.capClose :: versionTail) := rfl

/-- Group 1 is fixed once it is closed: the items after it leave its bounds alone. -/
theorem versionTail_frame (inp : List Char) (pos : Nat) (cap : Nat × Nat) (x : Nat × Nat × Nat)
    (h : matchHere versionTail inp pos cap = some x) : x.2 = cap := by
  unfold versionTail at h
  obtain ⟨xs1, -, h⟩ := matchHere_lits_sound [' '] _ inp pos cap x h
  rw [matchHere_plus] at h
  obtain ⟨k1, -, -, h⟩ := tryLens_sound _ _ _ h
  obtain ⟨xs2, -, h⟩ := matchHere_lits_sound [' '] _ _ _ cap x h
  rw [matchHere_plus] at h
  obtain ⟨k2, -, -, h⟩ := tryLens_sound _ _ _ h
  obtain ⟨xs3, -, h⟩ := matchHere_lits_sound ['/'] _ _ _ cap x h
  rw [matchHere_plus] at h
  obtain ⟨k3, -, -, h⟩ := tryLens_sound _ _ _ h
  rw [matchHere_nil] at h
  simp only [Option.some.injEq] at h
  rw [← h]

theorem versionTail_accepts (mid os arch tail : List Char) (pos : Nat) (cap : Nat × Nat)
    (hmid : mid ≠ []) (hmidc : ∀ c ∈ mid, isDot c = true)
    (hos : os ≠ []) (hosc : ∀ c ∈ os, isWordChar c = true)
    (harch : arch ≠ []) (harchc : ∀ c ∈ arch, isWordChar c = true) :
    (matchHere versionTail (' ' :: (mid ++ ' ' :: (os ++ '/' :: (arch ++ tail)))) pos
      cap).isSome = true := by
  have lpos : ∀ l : List Char, l ≠ [] → 1 ≤ l.length := by
    intro l hl
    cases l with
    | nil => exact absurd rfl hl
    | cons a t => simp
  unfold versionTail
  rw [matchHere_lit_cons, if_pos rfl, matchHere_plus]
  apply tryLens_isSome _ mid.length _ (lpos mid hmid) (takeWhile_run_le mid _ hmidc)
  simp only [List.drop_left]
  rw [matchHere_lit_cons, if_pos rfl, matchHere_plus,
    takeWhile_run os '/' _ hosc (by decide)]
  apply tryLens_isSome _ os.length _ (lpos os hos) (le_refl _)
  simp only [List.drop_left]
  rw [matchHere_lit_cons, if_pos rfl, matchHere_plus]
  apply tryLens_isSome _ arch.length _ (lpos arch harch) (takeWhile_run_le arch _ harchc)
  rw [matchHere_nil]
  rfl

theorem matchHere_versionRegexp (hash mid os arch tail : List Char)
    (hhash : hash ≠ []) (hhashc : ∀ c ∈ hash, isWordChar c = true)
    (hmid : mid ≠ []) (hmidc : ∀ c ∈ mid, isDot c = true)
    (hos : os ≠ []) (hosc : ∀ c ∈ os, isWordChar c = true)
    (harch : arch ≠ []) (harchc : ∀ c ∈ arch, isWordChar c = true) :
    ∃ e, matchHere versionRegexp
      (versionHead ++ (hash ++ ' ' :: (mid ++ ' ' :: (os ++ '/' :: (arch ++ tail))))) 0 (0, 0)
        = some (e, 18, 18 + hash.length) := by
  have hlen : 1 ≤ hash.length := by
    cases hash with
    | nil => exact absurd rfl hhash
    | cons a t => simp
  have hacc := versionTail_accepts mid os arch tail (18 + hash.length) (18, 18 + hash.length)
    hmid hmidc hos hosc harch harchc
  obtain ⟨x, hx⟩ := Option.isSome_iff_exists.mp hacc
  have hfr := versionTail_frame _ _ _ _ hx
  refine ⟨x.1, ?_⟩
  rw [versionRegexp_split]
  unfold versionHead
  rw [matchHere_lits, matchHere_capOpen, matchHere_plus,
    takeWhile_run hash ' ' _ hhashc (by decide)]
  apply tryLens_top _ _ _ hlen
  simp only [List.drop_left]
  rw [matchHere_capClose]
  have h18 : 0 + "go version devel +".data.length = 18 := by decide
  rw [h18, hx]
  congr 1
  exact Prod.ext rfl hfr

theorem findFrom_of_matchHere (re : List Item) (inp : List Char) (start : Nat)
    (r : Nat × Nat × Nat) (h : matchHere re inp start (0, 0) = some r) :
    findFrom re inp start = some (start, r) := by
  cases inp with
  | nil => rw [findFrom, h]
  | cons x xs => rw [findFrom, h]

theorem FindStringSubmatch_template (hash mid os arch tail : String)
    (hhash : hash.data ≠ []) (hhashc : ∀ c ∈ hash.data, isWordChar c = true)
    (hmid : mid.data ≠ []) (hmidc : ∀ c ∈ mid.data, isDot c = true)
    (hos : os.data ≠ []) (hosc : ∀ c ∈ os.data, isWordChar c = true)
    (harch : arch.data ≠ []) (harchc : ∀ c ∈ arch.data, isWordChar c = true) :
    ∃ whole, FindStringSubmatch versionRegexp
      ("go version devel +" ++ hash ++ " " ++ mid ++ " " ++ os ++ "/" ++ arch ++ tail)
        = [whole, hash] := by
  obtain ⟨e, he⟩ := matchHere_versionRegexp hash.data mid.data os.data arch.data tail.data
    hhash hhashc hmid hmidc hos hosc harch harchc
  have hd : ("go version devel +" ++ hash ++ " " ++ mid ++ " " ++ os ++ "/" ++ arch ++ tail).data
      = versionHead ++ (hash.data ++ ' ' :: (mid.data ++ ' ' :: (os.data ++ '/' ::
          (arch.data ++ tail.data)))) := by
    simp [String.data_append, versionHead]
  unfold FindStringSubmatch
  rw [hd, findFrom_of_matchHere _ _ _ _ he]
  refine ⟨slice (versionHead ++ (hash.data ++ ' ' :: (mid.data ++ ' ' :: (os.data ++ '/' ::
    (arch.data ++ tail.data))))) 0 e, ?_⟩
  simp only [List.cons.injEq, and_true, true_and]
  unfold slice
  have h18 : versionHead.length = 18 := by decide
  rw [← h18, List.drop_left, Nat.add_sub_cancel_left, List.take_left]

theorem matchHere_versionRegexp_sound (inp : List Char) (pos : Nat) (cap : Nat × Nat)
    (x : Nat × Nat × Nat) (h : matchHere versionRegexp inp pos cap = some x) :
    ∃ hash rest : List Char,
      inp = versionHead ++ (hash ++ ' ' :: rest) ∧ hash ≠ [] ∧ rest ≠ [] := by
  rw [versionRegexp_split] at h
  obtain ⟨xs, hxs, h⟩ := matchHere_lits_sound _ _ _ _ _ _ h
  rw [matchHere_capOpen, matchHere_plus] at h
  obtain ⟨k, hk1, hk2, h⟩ := tryLens_sound _ _ _ h
  rw [matchHere_capClose] at h
  unfold versionTail at h
  obtain ⟨xs1, hxs1, h⟩ := matchHere_lits_sound [' '] _ _ _ _ _ h
  rw [matchHere_plus] at h
  obtain ⟨k1, hk3, hk4, -⟩ := tryLens_sound _ _ _ h
  have hle : (List.takeWhile isWordChar xs).length ≤ xs.length :=
    (List.takeWhile_sublist isWordChar).length_le
  have hle1 : (List.takeWhile isDot xs1).length ≤ xs1.length :=
    (List.takeWhile_sublist isDot).length_le
  refine ⟨xs.take k, xs1, ?_, ?_, ?_⟩
  · have hsplit : xs = xs.take k ++ xs.drop k := (List.take_append_drop k xs).symm
    rw [hxs1] at hsplit
    rw [hxs]
    unfold versionHead
    exact congrArg _ hsplit
  · intro hnil
    have hl : (List.take k xs).length = 0 := by rw [hnil]; rfl
    rw [List.length_take] at hl
    omega
  · intro hnil
    rw [hnil] at hk4
    simp only [List.takeWhile_nil, List.length_nil] at hk4
    omega

theorem findFrom_sound (re : List Item) (inp : List Char) (start : Nat)
    (r : Nat × Nat × Nat × Nat) (h : findFrom re inp start = some r) :
    ∃ (pre suf : List Char) (pos : Nat) (x : Nat × Nat × Nat),
      inp = pre ++ suf ∧ matchHere re suf pos (0, 0) = some x := by
  induction inp generalizing start with
  | nil =>
    rw [findFrom] at h
    cases hm : matchHere re [] start (0, 0) with
    | none => rw [hm] at h; simp at h
    | some x => exact ⟨[], [], start, x, rfl, hm⟩
  | cons c cs ih =>
    rw [findFrom] at h
    cases hm : matchHere re (c :: cs) start (0, 0) with
    | some x => exact ⟨[], c :: cs, start, x, rfl, hm⟩
    | none =>
      rw [hm] at h
      obtain ⟨pre, suf, pos, x, h1, h2⟩ := ih (start + 1) h
      exact ⟨c :: pre, suf, pos, x, by rw [h1]; rfl, h2⟩

/-- Where the template does not occur, the pattern has no match. -/
theorem FindStringSubmatch_of_not_template (s : String) (h : ¬ ContainsTemplate s) :
    FindStringSubmatch versionRegexp s = [] := by
  unfold FindStringSubmatch
  cases hf : findFrom versionRegexp s.data 0 with
  | none => rfl
  | some r =>
    exfalso
    apply h
    obtain ⟨pre, suf, pos, x, h1, h2⟩ := findFrom_sound _ _ _ _ hf
    obtain ⟨hash, rest, h3, h4, h5⟩ := matchHere_versionRegexp_sound _ _ _ _ h2
    exact ⟨pre, hash, rest, by rw [h1, h3], h4, h5⟩

/-! ## Lemmas on runs -/

theorem bind_eq {α β : Type} (x : Run α) (f : α → Run β) : (x >>= f) = Run.bind x f := rfl

theorem pure_eq {α : Type} (a : α) : (pure a : Run α) = ⟨[], Result.ret a⟩ := rfl

theorem getVersion_fail (cfg : Config) (w : World) (e : Error) (h : w.version = some e) :
    getVersion cfg w =
      ⟨[Event.run (versionCmd cfg), Event.eprintln [Val.str "getVersion", Val.err e]],
        Result.exit (-1)⟩ := by
  simp [getVersion, fatal, emit, osExit, bind_eq, pure_eq, Run.bind, h]

theorem getVersion_nomatch (cfg : Config) (w : World) (h : w.version = none)
    (hm : FindStringSubmatch versionRegexp w.versionOut = []) :
    getVersion cfg w =
      ⟨[Event.run (versionCmd cfg),
          Event.eprintln [Val.str "getVersion", Val.err errUnknownVersion]],
        Result.exit (-1)⟩ := by
  simp [getVersion, fatal, emit, osExit, bind_eq, pure_eq, Run.bind, h, hm]

theorem getVersion_token (cfg : Config) (w : World) (whole tok : String) (h : w.version = none)
    (hm : FindStringSubmatch versionRegexp w.versionOut = [whole, tok]) :
    getVersion cfg w = ⟨[Event.run (versionCmd cfg)], Result.ret tok⟩ := by
  simp [getVersion, fatal, emit, osExit, bind_eq, pure_eq, Run.bind, h, hm]

theorem FindStringSubmatch_cases (re : List Item) (s : String) :
    FindStringSubmatch re s = [] ∨ ∃ whole tok, FindStringSubmatch re s = [whole, tok] := by
  unfold FindStringSubmatch
  cases findFrom re s.data 0 with
  | none => exact Or.inl rfl
  | some r => exact Or.inr ⟨_, _, rfl⟩

theorem getCommitHash_ok (cfg : Config) (w : World) (h : w.revParse = none) :
    getCommitHash cfg w = ⟨[Event.run (hashCmd cfg)], Result.ret (TrimSpace w.revParseOut)⟩ := by
  simp [getCommitHash, fatal, emit, bind_eq, pure_eq, Run.bind, h]

theorem getCommitHash_fail (cfg : Config) (w : World) (e : Error) (h : w.revParse = some e) :
    getCommitHash cfg w =
      ⟨[Event.run (hashCmd cfg), Event.eprintln [Val.str "git hash", Val.err e]],
        Result.exit (-1)⟩ := by
  simp [getCommitHash, fatal, emit, osExit, bind_eq, pure_eq, Run.bind, h]

theorem updateGit_ok (cfg : Config) (w : World) (h : w.pull = none) :
    updateGit cfg w =
      ⟨[Event.run (pullCmd cfg), Event.printf "updated (%s)\n" [Val.dur w.pullElapsed]],
        Result.ret ()⟩ := by
  simp [updateGit, fatal, emit, bind_eq, pure_eq, Run.bind, h]

theorem updateGit_fail (cfg : Config) (w : World) (e : Error) (h : w.pull = some e) :
    updateGit cfg w =
      ⟨[Event.run (pullCmd cfg), Event.eprintln [Val.str "git pull", Val.err e]],
        Result.exit (-1)⟩ := by
  simp [updateGit, fatal, emit, osExit, bind_eq, pure_eq, Run.bind, h]

theorem isUpdateNeeded_ok (cfg : Config) (w : World) (whole tok : String)
    (hv : w.version = none)
    (hm : FindStringSubmatch versionRegexp w.versionOut = [whole, tok])
    (hr : w.revParse = none) :
    isUpdateNeeded cfg w =
      ⟨[Event.run (versionCmd cfg), Event.run (hashCmd cfg)],
        Result.ret (tok != TrimSpace w.revParseOut)⟩ := by
  simp [isUpdateNeeded, getVersion_token cfg w whole tok hv hm, getCommitHash_ok cfg w hr,
    bind_eq, pure_eq, Run.bind]

theorem isUpdateNeeded_version_fail (cfg : Config) (w : World) (e : Error)
    (hv : w.version = some e) :
    isUpdateNeeded cfg w =
      ⟨[Event.run (versionCmd cfg), Event.eprintln [Val.str "getVersion", Val.err e]],
        Result.exit (-1)⟩ := by
  simp [isUpdateNeeded, getVersion_fail cfg w e hv, bind_eq, Run.bind]

theorem isUpdateNeeded_nomatch (cfg : Config) (w : World) (hv : w.version = none)
    (hm : FindStringSubmatch versionRegexp w.versionOut = []) :
    isUpdateNeeded cfg w =
      ⟨[Event.run (versionCmd cfg),
          Event.eprintln [Val.str "getVersion", Val.err errUnknownVersion]],
        Result.exit (-1)⟩ := by
  simp [isUpdateNeeded, getVersion_nomatch cfg w hv hm, bind_eq, Run.bind]

theorem isUpdateNeeded_hash_fail (cfg : Config) (w : World) (whole tok : String) (e : Error)
    (hv : w.version = none)
    (hm : FindStringSubmatch versionRegexp w.versionOut = [whole, tok])
    (hr : w.revParse = some e) :
    isUpdateNeeded cfg w =
      ⟨[Event.run (versionCmd cfg), Event.run (hashCmd cfg),
          Event.eprintln [Val.str "git hash", Val.err e]],
        Result.exit (-1)⟩ := by
  simp [isUpdateNeeded, getVersion_token cfg w whole tok hv hm, getCommitHash_fail cfg w e hr,
    bind_eq, Run.bind]

/-- When `isUpdateNeeded` returns, both commands succeeded and the pattern matched. -/
theorem isUpdateNeeded_ret (cfg : Config) (w : World) (b : Bool)
    (hb : (isUpdateNeeded cfg w).res = Result.ret b) :
    ∃ whole tok, w.version = none ∧
      FindStringSubmatch versionRegexp w.versionOut = [whole, tok] ∧ w.revParse = none ∧
      b = (tok != TrimSpace w.revParseOut) := by
  cases hv : w.version with
  | some e =>
    rw [isUpdateNeeded_version_fail cfg w e hv] at hb
    exact Result.noConfusion hb
  | none =>
    rcases FindStringSubmatch_cases versionRegexp w.versionOut with hm | ⟨whole, tok, hm⟩
    · rw [isUpdateNeeded_nomatch cfg w hv hm] at hb
      exact Result.noConfusion hb
    · cases hr : w.revParse with
      | some e =>
        rw [isUpdateNeeded_hash_fail cfg w whole tok e hv hm hr] at hb
        exact Result.noConfusion hb
      | none =>
        rw [isUpdateNeeded_ok cfg w whole tok hv hm hr] at hb
        refine ⟨whole, tok, rfl, hm, rfl, ?_⟩
        simp only [Result.ret.injEq] at hb
        exact hb.symm

theorem build_ok (cfg : Config) (w : World) (hs : w.buildStart = none)
    (hw : w.buildWait = none) :
    build cfg w =
      ⟨[Event.start (buildCmd cfg w), Event.wait (buildCmd cfg w),
          Event.println [Val.str "built in", Val.dur w.buildElapsed]],
        Result.ret ()⟩ := by
  simp [build, fatal, emit, bind_eq, pure_eq, Run.bind, hs, hw]

theorem build_start_fail (cfg : Config) (w : World) (e : Error) (hs : w.buildStart = some e) :
    build cfg w =
      ⟨[Event.start (buildCmd cfg w), Event.eprintln [Val.str "start", Val.err e]],
        Result.exit (-1)⟩ := by
  simp [build, fatal, emit, osExit, bind_eq, pure_eq, Run.bind, hs]

theorem build_wait_fail (cfg : Config) (w : World) (e : Error) (hs : w.buildStart = none)
    (hw : w.buildWait = some e) :
    build cfg w =
      ⟨[Event.start (buildCmd cfg w), Event.wait (buildCmd cfg w),
          Event.eprintln [Val.str "wait", Val.err e]],
        Result.exit (-1)⟩ := by
  simp [build, fatal, emit, osExit, bind_eq, pure_eq, Run.bind, hs, hw]

theorem routine_pull_fail (cfg : Config) (w : World) (e : Error) (hp : w.pull = some e) :
    routine cfg w =
      ⟨[Event.run (pullCmd cfg), Event.eprintln [Val.str "git pull", Val.err e]],
        Result.exit (-1)⟩ := by
  simp [routine, updateGit_fail cfg w e hp, bind_eq, Run.bind]

theorem routine_version_fail (cfg : Config) (w : World) (e : Error) (hp : w.pull = none)
    (hv : w.version = some e) :
    routine cfg w =
      ⟨pullOk cfg w ++
        [Event.run (versionCmd cfg), Event.eprintln [Val.str "getVersion", Val.err e]],
        Result.exit (-1)⟩ := by
  simp [routine, updateGit_ok cfg w hp, isUpdateNeeded_version_fail cfg w e hv, bind_eq,
    Run.bind, pullOk]

theorem routine_nomatch (cfg : Config) (w : World) (hp : w.pull = none)
    (hv : w.version = none) (hm : FindStringSubmatch versionRegexp w.versionOut = []) :
    routine cfg w =
      ⟨pullOk cfg w ++
        [Event.run (versionCmd cfg),
          Event.eprintln [Val.str "getVersion", Val.err errUnknownVersion]],
        Result.exit (-1)⟩ := by
  simp [routine, updateGit_ok cfg w hp, isUpdateNeeded_nomatch cfg w hv hm, bind_eq,
    Run.bind, pullOk]

theorem routine_hash_fail (cfg : Config) (w : World) (whole tok : String) (e : Error)
    (hp : w.pull = none) (hv : w.version = none)
    (hm : FindStringSubmatch versionRegexp w.versionOut = [whole, tok])
    (hr : w.revParse = some e) :
    routine cfg w =
      ⟨pullOk cfg w ++
        [Event.run (versionCmd cfg), Event.run (hashCmd cfg),
          Event.eprintln [Val.str "git hash", Val.err e]],
        Result.exit (-1)⟩ := by
  simp [routine, updateGit_ok cfg w hp, isUpdateNeeded_hash_fail cfg w whole tok e hv hm hr,
    bind_eq, Run.bind, pullOk]

theorem routine_same (cfg : Config) (w : World) (whole tok : String)
    (hp : w.pull = none) (hv : w.version = none)
    (hm : FindStringSubmatch versionRegexp w.versionOut = [whole, tok])
    (hr : w.revParse = none) (heq : tok = TrimSpace w.revParseOut) :
    routine cfg w =
      ⟨pullOk cfg w ++
        [Event.run (versionCmd cfg), Event.run (hashCmd cfg),
          Event.println [Val.str "no update needed"]],
        Result.ret ()⟩ := by
  simp [routine, updateGit_ok cfg w hp, isUpdateNeeded_ok cfg w whole tok hv hm hr,
    bind_eq, Run.bind, pullOk, heq, emit]

theorem routine_differ (cfg : Config) (w : World) (whole tok : String)
    (hp : w.pull = none) (hv : w.version = none)
    (hm : FindStringSubmatch versionRegexp w.versionOut = [whole, tok])
    (hr : w.revParse = none) (hne : tok ≠ TrimSpace w.revParseOut) :
    routine cfg w =
      ⟨pullOk cfg w ++ [Event.run (versionCmd cfg), Event.run (hashCmd cfg)] ++
        (build cfg w).trace, (build cfg w).res⟩ := by
  simp [routine, updateGit_ok cfg w hp, isUpdateNeeded_ok cfg w whole tok hv hm hr,
    bind_eq, Run.bind, pullOk, hne]

theorem buildStarts_build (cfg : Config) (w : World) :
    buildStarts (build cfg w).trace = [buildCmd cfg w] := by
  cases hs : w.buildStart with
  | some e => rw [build_start_fail cfg w e hs]; rfl
  | none =>
    cases hw : w.buildWait with
    | some e => rw [build_wait_fail cfg w e hs hw]; rfl
    | none => rw [build_ok cfg w hs hw]; rfl

theorem routine_res (cfg : Config) (w : World) :
    (routine cfg w).res = Result.ret () ∨ (routine cfg w).res = Result.exit (-1) := by
  cases hp : w.pull with
  | some e => rw [routine_pull_fail cfg w e hp]; exact Or.inr rfl
  | none =>
    cases hv : w.version with
    | some e => rw [routine_version_fail cfg w e hp hv]; exact Or.inr rfl
    | none =>
      rcases FindStringSubmatch_cases versionRegexp w.versionOut with hm | ⟨whole, tok, hm⟩
      · rw [routine_nomatch cfg w hp hv hm]; exact Or.inr rfl
      · cases hr : w.revParse with
        | some e => rw [routine_hash_fail cfg w whole tok e hp hv hm hr]; exact Or.inr rfl
        | none =>
          by_cases heq : tok = TrimSpace w.revParseOut
          · rw [routine_same cfg w whole tok hp hv hm hr heq]; exact Or.inl rfl
          · rw [routine_differ cfg w whole tok hp hv hm hr heq]
            cases hs : w.buildStart with
            | some e => rw [build_start_fail cfg w e hs]; exact Or.inr rfl
            | none =>
              cases hw : w.buildWait with
              | some e => rw [build_wait_fail cfg w e hs hw]; exact Or.inr rfl
              | none => rw [build_ok cfg w hs hw]; exact Or.inl rfl

theorem bind_of_ret {α β : Type} (x : Run α) (f : α → Run β) (a : α)
    (h : x.res = Result.ret a) : Run.bind x f = ⟨x.trace ++ (f a).trace, (f a).res⟩ := by
  unfold Run.bind
  rw [h]

theorem bind_of_not_ret (x : Run Unit) (f : Unit → Run Unit) (h : x.res ≠ Result.ret ()) :
    Run.bind x f = ⟨x.trace, x.res⟩ := by
  unfold Run.bind
  cases hx : x.res with
  | ret a => exact absurd hx h
  | exit c => rfl
  | panic m => rfl
  | blocked => rfl

theorem tickLoop_succ (cfg : Config) (w : Nat → World) (n i : Nat) :
    tickLoop cfg w (n + 1) i =
      Run.bind (emit Event.tick) (fun _ =>
        Run.bind (routine cfg (w i)) (fun _ => tickLoop cfg w n (i + 1))) := by
  rw [tickLoop]
  rfl

theorem tickLoop_all_ret (cfg : Config) (w : Nat → World) (n i : Nat)
    (h : ∀ j, j < n → (routine cfg (w (i + j))).res = Result.ret ()) :
    tickLoop cfg w n i = ⟨cyclesFrom cfg w n i, Result.blocked⟩ := by
  induction n generalizing i with
  | zero => rfl
  | succ m ih =>
    have h0 : (routine cfg (w i)).res = Result.ret () := by simpa using h 0 (Nat.succ_pos m)
    have hrest : ∀ j, j < m → (routine cfg (w (i + 1 + j))).res = Result.ret () := by
      intro j hj
      have := h (j + 1) (Nat.succ_lt_succ hj)
      rw [show i + (j + 1) = i + 1 + j by omega] at this
      exact this
    rw [tickLoop_succ, bind_of_ret (emit Event.tick) _ () rfl, bind_of_ret _ _ () h0,
      ih (i + 1) hrest]
    rfl

theorem tickLoop_stop (cfg : Config) (w : Nat → World) (n i k : Nat) (hk : k < n)
    (h : ∀ j, j < k → (routine cfg (w (i + j))).res = Result.ret ())
    (hx : (routine cfg (w (i + k))).res ≠ Result.ret ()) :
    tickLoop cfg w n i = ⟨cyclesFrom cfg w (k + 1) i, (routine cfg (w (i + k))).res⟩ := by
  induction k generalizing n i with
  | zero =>
    obtain ⟨m, rfl⟩ : ∃ m, n = m + 1 := ⟨n - 1, by omega⟩
    rw [Nat.add_zero] at hx
    rw [tickLoop_succ, bind_of_ret (emit Event.tick) _ () rfl, bind_of_not_ret _ _ hx]
    simp [cyclesFrom, emit]
  | succ k ih =>
    obtain ⟨m, rfl⟩ : ∃ m, n = m + 1 := ⟨n - 1, by omega⟩
    have h0 : (routine cfg (w i)).res = Result.ret () := by simpa using h 0 (Nat.succ_pos k)
    have hrest : ∀ j, j < k → (routine cfg (w (i + 1 + j))).res = Result.ret () := by
      intro j hj
      have := h (j + 1) (Nat.succ_lt_succ hj)
      rw [show i + (j + 1) = i + 1 + j by omega] at this
      exact this
    have hx2 : (routine cfg (w (i + 1 + k))).res ≠ Result.ret () := by
      rw [show i + 1 + k = i + (k + 1) by omega]
      exact hx
    rw [tickLoop_succ, bind_of_ret (emit Event.tick) _ () rfl, bind_of_ret _ _ () h0,
      ih m (i + 1) (by omega) hrest hx2, show i + 1 + k = i + (k + 1) by omega]
    simp [cyclesFrom, emit]

theorem main_print (cfg : Config) (w : Nat → World) (n : Nat) (hp : cfg.printVersion = true) :
    main cfg w n =
      Run.bind (getVersion cfg (w 0)) (fun v => ⟨[Event.print [Val.str v]], Result.exit 1⟩) := by
  unfold main
  simp only [hp, if_true, bind_eq]
  unfold Run.bind
  cases hres : (getVersion cfg (w 0)).res <;> simp [emit, osExit, hres]

theorem main_loop (cfg : Config) (w : Nat → World) (n : Nat) (hp : cfg.printVersion = false) :
    main cfg w n =
      Run.bind (emit (startedLine cfg)) (fun _ =>
        Run.bind (routine cfg (w 0)) (fun _ =>
          Run.bind (NewTicker cfg.updateRate) (fun _ => tickLoop cfg w n 1))) := by
  unfold main
  simp only [hp, bind_eq, pure_eq, startedLine]
  rfl

/-! ## Lemmas on the environment of a child -/

theorem dedupScan_clean (l : List String) (saw : List (List Char))
    (h1 : ∀ kv ∈ l, kv ≠ "" ∧ kv.data.contains (Char.ofNat 0) = false)
    (h2 : (l.filterMap envKey).Nodup)
    (h3 : ∀ k ∈ l.filterMap envKey, k ∉ saw) :
    dedupScan l saw = (l, none) := by
  induction l generalizing saw with
  | nil => rfl
  | cons kv rest ih =>
    have hkv := h1 kv (List.mem_cons_self kv rest)
    have hrest : ∀ x ∈ rest, x ≠ "" ∧ x.data.contains (Char.ofNat 0) = false :=
      fun x hx => h1 x (List.mem_cons_of_mem kv hx)
    rw [dedupScan, if_neg (by rw [hkv.2]; exact Bool.false_ne_true)]
    cases hk : envKey kv with
    | none =>
      rw [List.filterMap_cons_none hk] at h2 h3
      simp only [if_neg hkv.1]
      rw [ih saw hrest h2 h3]
    | some k =>
      rw [List.filterMap_cons_some hk] at h2 h3
      have hnot : k ∉ saw := h3 k (List.mem_cons_self k _)
      have hc : saw.contains k = false := by
        cases hb : saw.contains k with
        | false => rfl
        | true => exact absurd (List.elem_iff.mp hb) hnot
      have h2r := (List.nodup_cons.mp h2)
      have h3r : ∀ k2 ∈ rest.filterMap envKey, k2 ∉ k :: saw := by
        intro k2 hk2 hmem
        rcases List.mem_cons.mp hmem with heq | hin
        · exact h2r.1 (heq ▸ hk2)
        · exact h3 k2 (List.mem_cons_of_mem k hk2) hin
      simp only [hc, Bool.false_eq_true, if_false]
      rw [ih (k :: saw) hrest h2r.2 h3r]

theorem dedupEnv_clean (env : List String) (h : CleanEnv env) : dedupEnv env = (env, none) := by
  have hs : dedupScan env.reverse [] = (env.reverse, none) := by
    apply dedupScan_clean
    · intro kv hkv
      exact h.1 kv (List.mem_reverse.mp hkv)
    · rw [List.filterMap_reverse]
      exact List.nodup_reverse.mpr h.2
    · intro k _ hk
      exact List.not_mem_nil k hk
  unfold dedupEnv
  rw [hs]
  simp

/-! ## Outputs outside the pattern -/

/-- A hash with a character outside `\w` is not extracted: the pattern has no match. -/
theorem getVersion_hash_not_word :
    getVersion defaultConfig
        (okWorld "go version devel +abc-def Mon Jan 1 00:00:00 2024 +0000 linux/amd64" "") =
      ⟨[Event.run (versionCmd defaultConfig),
          Event.eprintln [Val.str "getVersion", Val.err errUnknownVersion]],
        Result.exit (-1)⟩ := by
  decide

/-- A newline right after the hash stops `.+`: the leftmost match is on the next
line and the token is the hash of that line. -/
theorem getVersion_next_line :
    getVersion defaultConfig
        (okWorld "go version devel +abc x\ngo version devel +xyz q r/s" "") =
      ⟨[Event.run (versionCmd defaultConfig)], Result.ret "xyz"⟩ := by
  decide

/-- The search is not anchored: text before the template does not prevent the match. -/
theorem getVersion_not_anchored :
    getVersion defaultConfig (okWorld "warning\ngo version devel +abc d e/f\n" "") =
      ⟨[Event.run (versionCmd defaultConfig)], Result.ret "abc"⟩ := by
  decide

/-! ## The claims -/

/-- C1, as stated, fails: a version string `go version devel +<hash> <rest>` with a
hash of word characters and a rest that is not empty need not yield the hash.  On
`go version devel +abcdef1 x` the pattern has no match and `getVersion` ends the
process instead of returning `abcdef1`. -/
theorem getVersion_any_rest_counterexample :
    ¬ (∀ (cfg : Config) (w : World) (hash rest : String),
        hash.data ≠ [] → (∀ c ∈ hash.data, isWordChar c = true) → rest.data ≠ [] →
        w.version = none → w.versionOut = "go version devel +" ++ hash ++ " " ++ rest →
        (getVersion cfg w).res = Result.ret hash) := by
  intro h
  have h1 := h defaultConfig (okWorld "go version devel +abcdef1 x" "abcdef1\n") "abcdef1" "x"
    (by decide) (by decide) (by decide) rfl (by decide)
  have h2 : (getVersion defaultConfig (okWorld "go version devel +abcdef1 x" "abcdef1\n")).res
      = Result.exit (-1) := by decide
  rw [h2] at h1
  exact Result.noConfusion h1

/-- C1, amended: for every version string `go version devel +<hash> <rest>` whose hash
is a run of word characters that is not empty and whose rest is `<mid> <os>/<arch><tail>`
(mid not empty and without a newline, os and arch runs of word characters that are not
empty), `getVersion` launches the version command and returns exactly `<hash>`. -/
theorem getVersion_extracts_hash (cfg : Config) (w : World) (hash mid os arch tail : String)
    (hhash : hash.data ≠ []) (hhashc : ∀ c ∈ hash.data, isWordChar c = true)
    (hmid : mid.data ≠ []) (hmidc : ∀ c ∈ mid.data, isDot c = true)
    (hos : os.data ≠ []) (hosc : ∀ c ∈ os.data, isWordChar c = true)
    (harch : arch.data ≠ []) (harchc : ∀ c ∈ arch.data, isWordChar c = true)
    (hv : w.version = none)
    (ho : w.versionOut =
      "go version devel +" ++ hash ++ " " ++ mid ++ " " ++ os ++ "/" ++ arch ++ tail) :
    getVersion cfg w = ⟨[Event.run (versionCmd cfg)], Result.ret hash⟩ := by
  obtain ⟨whole, hw⟩ := FindStringSubmatch_template hash mid os arch tail
    hhash hhashc hmid hmidc hos hosc harch harchc
  rw [← ho] at hw
  exact getVersion_token cfg w whole hash hv hw

/-- The amended C1 at the version output of scenario A: the token is `abcdef1`. -/
theorem getVersion_extracts_hash_witness :
    getVersion defaultConfig (okWorld versionA "abcdef1\n") =
      ⟨[Event.run (versionCmd defaultConfig)], Result.ret "abcdef1"⟩ :=
  getVersion_extracts_hash defaultConfig (okWorld versionA "abcdef1\n")
    "abcdef1" "Mon Jan 1 00:00:00 2024 +0000" "linux" "amd64" ""
    (by decide) (by decide) (by decide) (by decide) (by decide) (by decide) (by decide)
    (by decide) rfl (by decide)

/-- C2: for every captured output of the version command that does not match the
template (the pattern has no match in it, or the text `go version devel +<hash> <rest>`
occurs nowhere in it), `getVersion` returns no token: after the version command it
reports `errUnknownVersion` and the process exits with status -1; the run is an exit,
not the panic of an index out of range, so `found[1]` is not evaluated. -/
theorem getVersion_unknown_version (cfg : Config) (w : World) (hv : w.version = none)
    (h : FindStringSubmatch versionRegexp w.versionOut = [] ∨ ¬ ContainsTemplate w.versionOut) :
    getVersion cfg w =
      ⟨[Event.run (versionCmd cfg),
          Event.eprintln [Val.str "getVersion", Val.err errUnknownVersion]],
        Result.exit (-1)⟩ := by
  have hm : FindStringSubmatch versionRegexp w.versionOut = [] := by
    rcases h with h | h
    · exact h
    · exact FindStringSubmatch_of_not_template _ h
  exact getVersion_nomatch cfg w hv hm

/-- C2 at the output of a release toolchain, `go version go1.4.2 linux/amd64`. -/
theorem getVersion_unknown_version_witness :
    getVersion defaultConfig (okWorld "go version go1.4.2 linux/amd64\n" "abcdef1\n") =
      ⟨[Event.run (versionCmd defaultConfig),
          Event.eprintln [Val.str "getVersion", Val.err errUnknownVersion]],
        Result.exit (-1)⟩ :=
  getVersion_unknown_version defaultConfig
    (okWorld "go version go1.4.2 linux/amd64\n" "abcdef1\n") rfl (Or.inl (by decide))

/-- C3: when the version command and the revision lookup both succeed and the pattern
yields the token `tok`, `isUpdateNeeded` launches the two commands and returns a
boolean that is true exactly when `tok` differs from the revision output with its
leading and trailing white space removed. -/
theorem isUpdateNeeded_iff_differ (cfg : Config) (w : World) (whole tok : String)
    (hv : w.version = none)
    (hm : FindStringSubmatch versionRegexp w.versionOut = [whole, tok])
    (hr : w.revParse = none) :
    ∃ b : Bool,
      isUpdateNeeded cfg w =
        ⟨[Event.run (versionCmd cfg), Event.run (hashCmd cfg)], Result.ret b⟩ ∧
      (b = true ↔ tok ≠ TrimSpace w.revParseOut) := by
  refine ⟨tok != TrimSpace w.revParseOut, isUpdateNeeded_ok cfg w whole tok hv hm hr, ?_⟩
  simp

/-- C3 at the two scenarios: token `abcdef1` against the revision output `abcdef1\n`
gives false, against `1234567\n` gives true. -/
theorem isUpdateNeeded_iff_differ_witness :
    (isUpdateNeeded defaultConfig (okWorld versionA "abcdef1\n")).res = Result.ret false ∧
    (isUpdateNeeded defaultConfig (okWorld versionA "1234567\n")).res = Result.ret true := by
  obtain ⟨b1, h1, i1⟩ := isUpdateNeeded_iff_differ defaultConfig (okWorld versionA "abcdef1\n")
    versionA "abcdef1" rfl (by decide) rfl
  obtain ⟨b2, h2, i2⟩ := isUpdateNeeded_iff_differ defaultConfig (okWorld versionA "1234567\n")
    versionA "abcdef1" rfl (by decide) rfl
  have e1 : b1 = false := by
    cases b1 with
    | false => rfl
    | true => exact absurd (by decide) (i1.mp rfl)
  have e2 : b2 = true := i2.mpr (by decide)
  rw [h1, h2, e1, e2]
  exact ⟨rfl, rfl⟩

/-- C4: in a cycle whose pull succeeds and whose `isUpdateNeeded` returns `b`: when
`b` is true the build is started exactly once (and the cycle returns when the build
succeeds); when `b` is false no build is started, the only commands launched are the
pull, the version command and the revision lookup, the last event is the line
`no update needed`, and the cycle returns. -/
theorem routine_builds_iff_needed (cfg : Config) (w : World) (b : Bool)
    (hp : w.pull = none) (hb : (isUpdateNeeded cfg w).res = Result.ret b) :
    (b = true →
      buildStarts (routine cfg w).trace = [buildCmd cfg w] ∧
      (w.buildStart = none → w.buildWait = none → (routine cfg w).res = Result.ret ())) ∧
    (b = false →
      buildStarts (routine cfg w).trace = [] ∧
      launched (routine cfg w).trace = [pullCmd cfg, versionCmd cfg, hashCmd cfg] ∧
      (routine cfg w).trace.getLast? = some (Event.println [Val.str "no update needed"]) ∧
      (routine cfg w).res = Result.ret ()) := by
  obtain ⟨whole, tok, hv, hm, hr, hbe⟩ := isUpdateNeeded_ret cfg w b hb
  constructor
  · intro ht
    have hne : tok ≠ TrimSpace w.revParseOut := by
      rw [ht] at hbe
      intro heq
      rw [heq] at hbe
      simp at hbe
    rw [routine_differ cfg w whole tok hp hv hm hr hne]
    constructor
    · have hb2 := buildStarts_build cfg w
      simp only [pullOk, List.cons_append, List.nil_append, buildStarts]
      exact hb2
    · intro hs hw
      rw [build_ok cfg w hs hw]
  · intro hf
    have heq : tok = TrimSpace w.revParseOut := by
      rw [hf] at hbe
      by_contra hne
      have : (tok != TrimSpace w.revParseOut) = true := by simpa using hne
      rw [this] at hbe
      exact Bool.noConfusion hbe
    rw [routine_same cfg w whole tok hp hv hm hr heq]
    exact ⟨rfl, rfl, rfl, rfl⟩

/-- C4 at scenario B (revision `1234567`, toolchain built from `abcdef1`): the build is
started once; and at scenario A (both `abcdef1`): it is not started. -/
theorem routine_builds_iff_needed_witness :
    buildStarts (routine defaultConfig (okWorld versionA "1234567\n")).trace =
      [buildCmd defaultConfig (okWorld versionA "1234567\n")] ∧
    buildStarts (routine defaultConfig (okWorld versionA "abcdef1\n")).trace = [] :=
  ⟨((routine_builds_iff_needed defaultConfig (okWorld versionA "1234567\n") true rfl
      (by decide)).1 rfl).1,
   ((routine_builds_iff_needed defaultConfig (okWorld versionA "abcdef1\n") false rfl
      (by decide)).2 rfl).1⟩

/-- C5: in a cycle whose pull fails with the error `e`, the trace is the pull and the
report of the error, the process exits with status -1, which is not zero, and the pull
is the only command launched: no version command, no revision lookup, no build.  In a
cycle whose pull succeeds, the version command of the comparison is launched right
after the `updated` line. -/
theorem routine_pull_gate (cfg : Config) (w : World) :
    (∀ e, w.pull = some e →
      routine cfg w =
        ⟨[Event.run (pullCmd cfg), Event.eprintln [Val.str "git pull", Val.err e]],
          Result.exit (-1)⟩ ∧
      (-1 : Int) ≠ 0 ∧
      launched (routine cfg w).trace = [pullCmd cfg]) ∧
    (w.pull = none →
      ∃ rest, (routine cfg w).trace =
        [Event.run (pullCmd cfg), Event.printf "updated (%s)\n" [Val.dur w.pullElapsed],
          Event.run (versionCmd cfg)] ++ rest) := by
  constructor
  · intro e hp
    rw [routine_pull_fail cfg w e hp]
    exact ⟨rfl, by decide, rfl⟩
  · intro hp
    cases hv : w.version with
    | some e =>
      rw [routine_version_fail cfg w e hp hv]
      exact ⟨_, rfl⟩
    | none =>
      rcases FindStringSubmatch_cases versionRegexp w.versionOut with hm | ⟨whole, tok, hm⟩
      · rw [routine_nomatch cfg w hp hv hm]
        exact ⟨_, rfl⟩
      · cases hr : w.revParse with
        | some e =>
          rw [routine_hash_fail cfg w whole tok e hp hv hm hr]
          exact ⟨_, rfl⟩
        | none =>
          by_cases heq : tok = TrimSpace w.revParseOut
          · rw [routine_same cfg w whole tok hp hv hm hr heq]
            exact ⟨_, rfl⟩
          · rw [routine_differ cfg w whole tok hp hv hm hr heq]
            exact ⟨_, rfl⟩

/-- C5 at scenario C: the pull exits with a status that is not zero. -/
theorem routine_pull_gate_witness :
    routine defaultConfig pullFails =
      ⟨[Event.run (pullCmd defaultConfig),
          Event.eprintln [Val.str "git pull", Val.err "exit status 1"]],
        Result.exit (-1)⟩ ∧
    launched (routine defaultConfig pullFails).trace = [pullCmd defaultConfig] :=
  ⟨((routine_pull_gate defaultConfig pullFails).1 "exit status 1" rfl).1,
   ((routine_pull_gate defaultConfig pullFails).1 "exit status 1" rfl).2.2⟩

/-- C6: with the print-version option set, `main` launches the version command and
nothing else (no pull, no revision lookup, no build); when the token `tok` is obtained
the only output is `tok`, printed as it is, and the process exits with status 1; in
every case the process exits with a status that is not zero, whatever the number of
ticks. -/
theorem main_printVersion (cfg : Config) (w : Nat → World) (n : Nat)
    (hp : cfg.printVersion = true) :
    (∀ whole tok, (w 0).version = none →
      FindStringSubmatch versionRegexp (w 0).versionOut = [whole, tok] →
      main cfg w n =
        ⟨[Event.run (versionCmd cfg), Event.print [Val.str tok]], Result.exit 1⟩) ∧
    (∃ c : Int, (main cfg w n).res = Result.exit c ∧ c ≠ 0) ∧
    launched (main cfg w n).trace = [versionCmd cfg] := by
  rw [main_print cfg w n hp]
  cases hv : (w 0).version with
  | some e =>
    rw [getVersion_fail cfg (w 0) e hv]
    refine ⟨?_, ⟨-1, rfl, by decide⟩, rfl⟩
    intro whole tok h
    exact Option.noConfusion h
  | none =>
    rcases FindStringSubmatch_cases versionRegexp (w 0).versionOut with hm | ⟨whole, tok, hm⟩
    · rw [getVersion_nomatch cfg (w 0) hv hm]
      refine ⟨?_, ⟨-1, rfl, by decide⟩, rfl⟩
      intro whole tok _ h
      rw [hm] at h
      exact List.noConfusion h
    · rw [getVersion_token cfg (w 0) whole tok hv hm]
      refine ⟨?_, ⟨1, rfl, by decide⟩, rfl⟩
      intro whole2 tok2 _ h
      rw [hm] at h
      simp only [List.cons.injEq, and_true] at h
      rw [← h.2]
      rfl

/-- C6 at the version output of scenario A: `abcdef1` is printed, the status is 1. -/
theorem main_printVersion_witness :
    main { defaultConfig with printVersion := true }
        (fun _ => okWorld versionA "1234567\n") 3 =
      ⟨[Event.run (versionCmd defaultConfig), Event.print [Val.str "abcdef1"]],
        Result.exit 1⟩ :=
  (main_printVersion { defaultConfig with printVersion := true }
    (fun _ => okWorld versionA "1234567\n") 3 rfl).1 versionA "abcdef1" rfl (by decide)

/-- C7, as stated, fails for the environment the child is given: with
`GOROOT_BOOTSTRAP=/old` already in the environment of the process, the child of the
build gets three entries, not the three inherited ones and one more; the entry
`GOROOT_BOOTSTRAP=/old` is not kept. -/
theorem build_environment_counterexample :
    dupWorld.environ = ["PATH=/usr/bin", "HOME=/root", "GOROOT_BOOTSTRAP=/old"] ∧
    childEnv (buildCmd defaultConfig dupWorld) =
      some ["PATH=/usr/bin", "HOME=/root",
        "GOROOT_BOOTSTRAP=/src/go-linux-amd64-bootstrap/"] ∧
    childEnv (buildCmd defaultConfig dupWorld) ≠
      some (dupWorld.environ ++ ["GOROOT_BOOTSTRAP=" ++ defaultConfig.toolChain]) := by
  decide

/-- C7, amended: when the environment `E` of the process followed by the entry
`GOROOT_BOOTSTRAP=` ++ toolchain path has no key twice and no entry that is empty or
holds a NUL byte, the first event of `build` starts the build command, the list
assigned to its `Env` and the environment its child is given are both exactly `E`
followed by that one entry: one element longer than `E`, equal to `E` at every index
of `E`, and with the new entry last. -/
theorem build_environment (cfg : Config) (w : World)
    (h : CleanEnv (w.environ ++ ["GOROOT_BOOTSTRAP=" ++ cfg.toolChain])) :
    (build cfg w).trace.head? = some (Event.start (buildCmd cfg w)) ∧
    (buildCmd cfg w).env = some (w.environ ++ ["GOROOT_BOOTSTRAP=" ++ cfg.toolChain]) ∧
    ∃ env, childEnv (buildCmd cfg w) = some env ∧
      env = w.environ ++ ["GOROOT_BOOTSTRAP=" ++ cfg.toolChain] ∧
      env.length = w.environ.length + 1 ∧
      (∀ i, i < w.environ.length → env[i]? = w.environ[i]?) ∧
      env.take w.environ.length = w.environ ∧
      env.getLast? = some ("GOROOT_BOOTSTRAP=" ++ cfg.toolChain) := by
  refine ⟨?_, rfl, ?_⟩
  · cases hs : w.buildStart with
    | some e => rw [build_start_fail cfg w e hs]; rfl
    | none =>
      cases hw : w.buildWait with
      | some e => rw [build_wait_fail cfg w e hs hw]; rfl
      | none => rw [build_ok cfg w hs hw]; rfl
  · refine ⟨w.environ ++ ["GOROOT_BOOTSTRAP=" ++ cfg.toolChain], ?_, rfl, ?_, ?_, ?_, ?_⟩
    · unfold childEnv buildCmd
      simp only [Option.map_some']
      rw [dedupEnv_clean _ h]
    · simp
    · intro i hi
      exact List.getElem?_append_left hi
    · simp
    · simp

/-- The amended C7 at scenario B, whose environment is `PATH` and `HOME`. -/
theorem build_environment_witness :
    childEnv (buildCmd defaultConfig (okWorld versionA "1234567\n")) =
      some ["PATH=/usr/bin", "HOME=/root",
        "GOROOT_BOOTSTRAP=/src/go-linux-amd64-bootstrap/"] := by
  obtain ⟨_, _, env, h1, h2, _⟩ :=
    build_environment defaultConfig (okWorld versionA "1234567\n") (by decide)
  rw [h1, h2]
  rfl

/-- C8: the schedule of `main` without the print-version option, seen for `n` ticks.
The trace opens with the started line and the whole first cycle; the timer is armed
only after that cycle has returned, and every tick received is followed by the whole
trace of exactly one cycle before the next tick is received.  The process stops with
the first cycle that does not return, and a rate that is not positive makes
`NewTicker` panic after the first cycle. -/
theorem main_schedule (cfg : Config) (w : Nat → World) (n : Nat)
    (hp : cfg.printVersion = false) :
    ((routine cfg (w 0)).res ≠ Result.ret () →
      main cfg w n = ⟨startedLine cfg :: (routine cfg (w 0)).trace, (routine cfg (w 0)).res⟩) ∧
    ((routine cfg (w 0)).res = Result.ret () → cfg.updateRate ≤ 0 →
      main cfg w n =
        ⟨startedLine cfg :: (routine cfg (w 0)).trace,
          Result.panic "non-positive interval for NewTicker"⟩) ∧
    ((∀ i, i ≤ n → (routine cfg (w i)).res = Result.ret ()) → 0 < cfg.updateRate →
      main cfg w n =
        ⟨startedLine cfg :: ((routine cfg (w 0)).trace ++
            Event.newTicker cfg.updateRate :: cyclesFrom cfg w n 1),
          Result.blocked⟩) ∧
    (∀ k, 1 ≤ k → k ≤ n → (∀ i, i < k → (routine cfg (w i)).res = Result.ret ()) →
      (routine cfg (w k)).res ≠ Result.ret () → 0 < cfg.updateRate →
      main cfg w n =
        ⟨startedLine cfg :: ((routine cfg (w 0)).trace ++
            Event.newTicker cfg.updateRate :: cyclesFrom cfg w k 1),
          (routine cfg (w k)).res⟩) := by
  rw [main_loop cfg w n hp, bind_of_ret (emit (startedLine cfg)) _ () rfl]
  refine ⟨?_, ?_, ?_, ?_⟩
  · intro h0
    rw [bind_of_not_ret _ _ h0]
    rfl
  · intro h0 hr
    have ht : NewTicker cfg.updateRate = ⟨[], Result.panic "non-positive interval for NewTicker"⟩ := by
      unfold NewTicker
      rw [if_pos hr]
      rfl
    rw [bind_of_ret _ _ () h0, bind_of_not_ret _ _ (by rw [ht]; exact fun h => Result.noConfusion h),
      ht]
    simp [emit]
  · intro hall hr
    have ht : NewTicker cfg.updateRate = ⟨[Event.newTicker cfg.updateRate], Result.ret ()⟩ := by
      unfold NewTicker
      rw [if_neg (by omega)]
      rfl
    have hloop := tickLoop_all_ret cfg w n 1 (fun j hj => hall (1 + j) (by omega))
    rw [bind_of_ret _ _ () (hall 0 (Nat.zero_le n)), bind_of_ret _ _ () (by rw [ht]), ht, hloop]
    simp [emit]
  · intro k hk1 hkn hbefore hk hr
    have ht : NewTicker cfg.updateRate = ⟨[Event.newTicker cfg.updateRate], Result.ret ()⟩ := by
      unfold NewTicker
      rw [if_neg (by omega)]
      rfl
    obtain ⟨k2, rfl⟩ : ∃ k2, k = k2 + 1 := ⟨k - 1, by omega⟩
    have hk3 : (routine cfg (w (1 + k2))).res ≠ Result.ret () := by
      rw [show 1 + k2 = k2 + 1 by omega]
      exact hk
    have hloop := tickLoop_stop cfg w n 1 k2 (by omega)
      (fun j hj => hbefore (1 + j) (by omega)) hk3
    rw [bind_of_ret _ _ () (hbefore 0 (by omega)), bind_of_ret _ _ () (by rw [ht]), ht, hloop,
      show 1 + k2 = k2 + 1 by omega]
    simp [emit]

/-- C8 at scenario A repeated, seen for two ticks: the first cycle, then the timer,
then one whole cycle after each of the two ticks. -/
theorem main_schedule_witness :
    main defaultConfig (fun _ => okWorld versionA "abcdef1\n") 2 =
      ⟨startedLine defaultConfig ::
          ((routine defaultConfig (okWorld versionA "abcdef1\n")).trace ++
            Event.newTicker defaultConfig.updateRate ::
              cyclesFrom defaultConfig (fun _ => okWorld versionA "abcdef1\n") 2 1),
        Result.blocked⟩ :=
  (main_schedule defaultConfig (fun _ => okWorld versionA "abcdef1\n") 2 rfl).2.2.1
    (fun _ _ => by decide) (by decide)

/-- C9: the registration of `init` does not complete.  The first call registers the
name `v` for `printVersion`; the second call, for `printGo`, passes the name `v`
again and the flag package panics with `flag redefined: v`.  So `init` returns no
flag set, none of `r`, `c`, `t` is registered, and `main` is not reached. -/
theorem init_flag_redefined :
    register [] (initFlags.take 1) =
      Except.ok [boolFlag Var.printVersion "v" false "print go version"] ∧
    register [] (initFlags.take 2) = Except.error (FlagPanic.redefined "v") ∧
    init = Except.error (FlagPanic.redefined "v") ∧
    ¬ ∃ fs, init = Except.ok fs := by
  refine ⟨rfl, rfl, rfl, ?_⟩
  rintro ⟨fs, hfs⟩
  have h2 : init = Except.error (FlagPanic.redefined "v") := rfl
  rw [h2] at hfs
  exact Except.noConfusion hfs

/-- C10: `fatal` with the nil error returns with no event; with an error it reports
the description and the error on standard error and the process exits with status -1,
which is not zero.  A cycle either returns or exits with status -1, and each of the
six failures (pull, version command, pattern, revision lookup, start of the build,
wait for the build) ends the cycle with the report of that failure as its last event
and status -1, after exactly the events of the steps before it: no later command is
launched. -/
theorem fatal_policy (cfg : Config) (w : World) :
    (∀ d, fatal none d = ⟨[], Result.ret ()⟩) ∧
    (∀ e d, fatal (some e) d =
      ⟨[Event.eprintln [Val.str d, Val.err e]], Result.exit (-1)⟩ ∧ (-1 : Int) ≠ 0) ∧
    ((routine cfg w).res = Result.ret () ∨ (routine cfg w).res = Result.exit (-1)) ∧
    (∀ e, w.pull = some e →
      routine cfg w =
        ⟨[Event.run (pullCmd cfg), Event.eprintln [Val.str "git pull", Val.err e]],
          Result.exit (-1)⟩) ∧
    (∀ e, w.pull = none → w.version = some e →
      routine cfg w =
        ⟨pullOk cfg w ++
          [Event.run (versionCmd cfg), Event.eprintln [Val.str "getVersion", Val.err e]],
          Result.exit (-1)⟩) ∧
    (w.pull = none → w.version = none →
      FindStringSubmatch versionRegexp w.versionOut = [] →
      routine cfg w =
        ⟨pullOk cfg w ++
          [Event.run (versionCmd cfg),
            Event.eprintln [Val.str "getVersion", Val.err errUnknownVersion]],
          Result.exit (-1)⟩) ∧
    (∀ whole tok e, w.pull = none → w.version = none →
      FindStringSubmatch versionRegexp w.versionOut = [whole, tok] → w.revParse = some e →
      routine cfg w =
        ⟨pullOk cfg w ++
          [Event.run (versionCmd cfg), Event.run (hashCmd cfg),
            Event.eprintln [Val.str "git hash", Val.err e]],
          Result.exit (-1)⟩) ∧
    (∀ whole tok e, w.pull = none → w.version = none →
      FindStringSubmatch versionRegexp w.versionOut = [whole, tok] → w.revParse = none →
      tok ≠ TrimSpace w.revParseOut → w.buildStart = some e →
      routine cfg w =
        ⟨pullOk cfg w ++
          [Event.run (versionCmd cfg), Event.run (hashCmd cfg),
            Event.start (buildCmd cfg w), Event.eprintln [Val.str "start", Val.err e]],
          Result.exit (-1)⟩) ∧
    (∀ whole tok e, w.pull = none → w.version = none →
      FindStringSubmatch versionRegexp w.versionOut = [whole, tok] → w.revParse = none →
      tok ≠ TrimSpace w.revParseOut → w.buildStart = none → w.buildWait = some e →
      routine cfg w =
        ⟨pullOk cfg w ++
          [Event.run (versionCmd cfg), Event.run (hashCmd cfg),
            Event.start (buildCmd cfg w), Event.wait (buildCmd cfg w),
            Event.eprintln [Val.str "wait", Val.err e]],
          Result.exit (-1)⟩) := by
  refine ⟨fun _ => rfl, fun _ _ => ⟨rfl, by decide⟩, routine_res cfg w,
    fun e hp => routine_pull_fail cfg w e hp,
    fun e hp hv => routine_version_fail cfg w e hp hv,
    fun hp hv hm => routine_nomatch cfg w hp hv hm,
    fun whole tok e hp hv hm hr => routine_hash_fail cfg w whole tok e hp hv hm hr, ?_, ?_⟩
  · intro whole tok e hp hv hm hr hne hs
    rw [routine_differ cfg w whole tok hp hv hm hr hne, build_start_fail cfg w e hs]
    rfl
  · intro whole tok e hp hv hm hr hne hs hw
    rw [routine_differ cfg w whole tok hp hv hm hr hne, build_wait_fail cfg w e hs hw]
    rfl

/-- C10 at a build that fails: the wait reports `exit status 2` and the process exits
with status -1 before the `built in` line. -/
theorem fatal_policy_witness :
    routine defaultConfig buildFails =
      ⟨pullOk defaultConfig buildFails ++
        [Event.run (versionCmd defaultConfig), Event.run (hashCmd defaultConfig),
          Event.start (buildCmd defaultConfig buildFails),
          Event.wait (buildCmd defaultConfig buildFails),
          Event.eprintln [Val.str "wait", Val.err "exit status 2"]],
        Result.exit (-1)⟩ :=
  (fatal_policy defaultConfig buildFails).2.2.2.2.2.2.2.2 versionA "abcdef1" "exit status 2"
    rfl rfl (by decide) rfl (by decide) rfl rfl

end Gobuild
